import Mathlib

/-
Verification of the twoecs entity component system (src/entity.h).

Shallow embedding notes:
- Entity is uint32: low 16 bits are the index, high 16 bits the version.
  We model entities as Nat with explicit arithmetic: x & 0xffff is x % 2^16,
  x >> 16 is x / 2^16, and i | (v << 16) is i + v * 2^16 whenever i < 2^16
  (every call site passes i = entity_index _, which is < 2^16); the uint32
  truncation is an explicit % 2^32.
- EntityMask is std::bitset<TWO_COMPONENT_MAX>; we model it as Finset Nat:
  mask.set t is insert t, mask.reset t is erase, mask.test t is membership,
  and the containment test (m & em) == m is m ⊆ em.
- Component types are identified with the small integer index the registry
  assigns them (component_types maps each C++ type to the next free index;
  we apply that bijection ahead of time). The reserved Active component has
  index 0, matching a run in which Active is registered first.
- unordered_map and unordered_set become association lists keyed by the
  mask (insertion order) and Finset Nat respectively; per type component
  stores become a total function from type index to ComponentArray, with
  all component values at one type Nat.
- Defensive assertions are preconditions: an operation whose assertion
  fails is a fatal contract violation in the source, so the operation
  interpreter skips such calls.
-/

namespace TwoEcs

/-! Entity handle encoding (entity_id, entity_index, entity_version). -/

/-- NullEntity = 0, the reserved sentinel. -/
def NullEntity : Nat := 0

/-- entity_id(i, version) = i | (version << 16) on uint32. -/
def entity_id (i v : Nat) : Nat := (i + v * 65536) % 4294967296

/-- entity_index(e) = e & 0xffff. -/
def entity_index (e : Nat) : Nat := e % 65536

/-- entity_version(e) = e >> 16 (e is a uint32). -/
def entity_version (e : Nat) : Nat := e / 65536

/-- TWO_ENTITY_MAX. -/
def entityMax : Nat := 8192

/-- TWO_COMPONENT_MAX. -/
def componentMax : Nat := 64

/-- Component type index assigned to the reserved Active component. -/
def activeComponent : Nat := 0

/-! ComponentArray<T>: dense packed storage with two maps (entity to slot,
slot to entity) and a logical count. -/

structure ComponentArray (T : Type) where
  packed_array : List T
  entity_to_packed : Nat → Option Nat
  packed_to_entity : Nat → Option Nat
  packed_count : Nat

/-- A freshly constructed ComponentArray (the reserve call only affects
capacity, not contents). -/
def ComponentArray.empty {T : Type} : ComponentArray T :=
  ⟨[], fun _ => none, fun _ => none, 0⟩

/-- ComponentArray::contains. -/
def ComponentArray.containsEnt {T : Type} (a : ComponentArray T) (e : Nat) : Bool :=
  (a.entity_to_packed e).isSome

/-- ComponentArray::count. -/
def ComponentArray.count {T : Type} (a : ComponentArray T) : Nat := a.packed_count

/-- ComponentArray::write: overwrite in place when the entity already has a
slot, otherwise append at slot packed_count and record both maps. The
vector either has the slot already (assign) or grows by one (push_back). -/
def ComponentArray.write {T : Type} (a : ComponentArray T) (e : Nat) (v : T) :
    ComponentArray T :=
  match a.entity_to_packed e with
  | some pos => { a with packed_array := a.packed_array.set pos v }
  | none =>
    let pos := a.packed_count
    { packed_array :=
        if pos < a.packed_array.length then a.packed_array.set pos v
        else a.packed_array ++ [v],
      entity_to_packed := fun x => if x = e then some pos else a.entity_to_packed x,
      packed_to_entity := fun s => if s = pos then some e else a.packed_to_entity s,
      packed_count := pos + 1 }

/-- ComponentArray::remove: no-op when the entity has no slot; otherwise
move the component at the last occupied slot into the removed slot, update
both maps for the moved entity, erase the removed entity and the old last
slot, and shrink the count. The source writes packed_to_entity[removed]
and entity_to_packed[moved] before erasing last and the removed entity, so
the erasures win when the slots coincide. In well formed stores the last
slot is always mapped; the fallbacks for the unmapped case are never hit. -/
def ComponentArray.remove {T : Type} (a : ComponentArray T) (e : Nat) :
    ComponentArray T :=
  match a.entity_to_packed e with
  | none => a
  | some removed =>
    let last := a.packed_count - 1
    let arr :=
      match a.packed_array.get? last with
      | some lastVal => a.packed_array.set removed lastVal
      | none => a.packed_array
    let moved := (a.packed_to_entity last).getD NullEntity
    { packed_array := arr,
      entity_to_packed := fun x =>
        if x = e then none
        else if x = moved then some removed
        else a.entity_to_packed x,
      packed_to_entity := fun s =>
        if s = last then none
        else if s = removed then some moved
        else a.packed_to_entity s,
      packed_count := a.packed_count - 1 }

/-- ComponentArray::copy: write(dst, read(src)). Reading an absent source
is an asserted precondition violation, modelled as a skip. -/
def ComponentArray.copy {T : Type} (a : ComponentArray T) (dst src : Nat) :
    ComponentArray T :=
  match a.entity_to_packed src with
  | none => a
  | some s =>
    match a.packed_array.get? s with
    | some v => a.write dst v
    | none => a

/-! World: entity registry, per type stores, structural masks, query cache. -/

/-- EntityCache::Diff::Operation. -/
inductive DiffOp where
  | add
  | remove
deriving DecidableEq

/-- EntityCache::Diff. -/
structure Diff where
  entity : Nat
  op : DiffOp
deriving DecidableEq

/-- EntityCache: cached entity list, pending diffs, membership set. -/
structure EntityCache where
  entities : List Nat
  diffs : List Diff
  lookup : Finset Nat
deriving DecidableEq

/-- DestroyedEntity: the destroyed id plus the keys of the caches that must
be rebuilt before the id can be reused (the source stores cache pointers;
keys identify cache entries uniquely). -/
structure DestroyedEntity where
  entity : Nat
  caches : List (Finset Nat)
deriving DecidableEq

structure World where
  alive_count : Nat
  unused_entities : List Nat
  destroyed_entities : List DestroyedEntity
  entities : List Nat
  view_cache : List (Finset Nat × EntityCache)
  entity_masks : Nat → Finset Nat
  components : Nat → ComponentArray Nat

def World.init : World :=
  ⟨0, [], [], [], [], fun _ => ∅, fun _ => ComponentArray.empty⟩

/-- Lookup of a cache entry by mask key (view_cache.find(mask)). -/
def findCache (vc : List (Finset Nat × EntityCache)) (m : Finset Nat) :
    Option EntityCache :=
  match vc with
  | [] => none
  | p :: rest => if p.1 = m then some p.2 else findCache rest m

/-- Replace the entry stored under a mask key. -/
def setCache (vc : List (Finset Nat × EntityCache)) (m : Finset Nat)
    (c : EntityCache) : List (Finset Nat × EntityCache) :=
  vc.map fun p => if p.1 = m then (p.1, c) else p

/-- World::invalidate_cache: drop the diff when one with the same entity and
operation is already pending, otherwise append it. A Diff consists of
exactly those two fields, so the field wise test is equality. -/
def invalidate_cache (c : EntityCache) (d : Diff) : EntityCache :=
  if c.diffs.any (fun x => decide (x.entity = d.entity ∧ x.op = d.op)) then c
  else { c with diffs := c.diffs ++ [d] }

/-- Swap with last removal on a plain list: overwrite the first occurrence
of e with the last element, then pop the last element (std::swap of *rem
with back() followed by pop_back). Call sites guarantee e is present. -/
def swapRemove (l : List Nat) (e : Nat) : List Nat :=
  (l.set (l.indexOf e) (l.getLastD 0)).dropLast

/-- One step of World::apply_diffs_to_cache: Add pushes the entity onto the
list and the membership set; Remove swaps the entity with the last list
element, pops it and erases it from the set. The source asserts the entity
of a Remove diff is present in the list; the absent case is a contract
violation, modelled as a skip. -/
def applyDiff (c : EntityCache) (d : Diff) : EntityCache :=
  match d.op with
  | DiffOp.add =>
    { c with entities := c.entities ++ [d.entity], lookup := insert d.entity c.lookup }
  | DiffOp.remove =>
    if d.entity ∈ c.entities then
      { c with entities := swapRemove c.entities d.entity,
               lookup := c.lookup.erase d.entity }
    else c

/-- World::apply_diffs_to_cache: fold all pending diffs in enqueue order,
then clear the queue. -/
def apply_diffs_to_cache (c : EntityCache) : EntityCache :=
  { c.diffs.foldl applyDiff c with diffs := [] }

/-- World::pack for one component: write into the store and set the mask
bit; when the entity already carried the type (the source compares the
old and new mask at the bit, which differ exactly when the bit was clear)
this is a pure overwrite and no cache is touched; otherwise every cache
whose key is contained in the new mask and whose membership set does not
already hold the entity gets an Add diff enqueued. -/
def World.pack (w : World) (e t v : Nat) : World :=
  let idx := entity_index e
  let current_mask := w.entity_masks idx
  let mask := insert t current_mask
  let w' : World :=
    { w with
      entity_masks := fun i => if i = idx then mask else w.entity_masks i,
      components := fun t2 => if t2 = t then (w.components t).write e v else w.components t2 }
  if t ∈ current_mask then w'
  else
    { w' with
      view_cache := w.view_cache.map fun p =>
        if p.1 ⊆ mask ∧ e ∉ p.2.lookup then (p.1, invalidate_cache p.2 ⟨e, DiffOp.add⟩)
        else p }

/-- World::remove for one component type: remove from the store, enqueue a
Remove diff on every cache whose key tests the type and whose membership
set still holds the entity, then clear the mask bit. -/
def World.remove (w : World) (e t : Nat) : World :=
  let idx := entity_index e
  { w with
    components := fun t2 => if t2 = t then (w.components t).remove e else w.components t2,
    view_cache := w.view_cache.map fun p =>
      if t ∈ p.1 ∧ e ∈ p.2.lookup then (p.1, invalidate_cache p.2 ⟨e, DiffOp.remove⟩)
      else p,
    entity_masks := fun i => if i = idx then (w.entity_masks idx).erase t else w.entity_masks i }

/-- The mask a view query uses: one bit per requested component plus the
reserved Active bit unless include_inactive is set. -/
def view_mask_of (ts : List Nat) (include_inactive : Bool) : Finset Nat :=
  let mask := ts.foldl (fun m t => insert t m) (∅ : Finset Nat)
  if include_inactive then mask else insert activeComponent mask

/-- World::view on an already built mask. Cache hit with no pending diffs
returns the cached list; with pending diffs it folds them first. Cache miss
scans all live entities, filtering by mask containment and excluding the
null entity, and installs the result as a fresh entry with no diffs. -/
def World.view_mask (w : World) (m : Finset Nat) : World × List Nat :=
  match findCache w.view_cache m with
  | some c =>
    match c.diffs with
    | [] => (w, c.entities)
    | _ :: _ =>
      let c' := apply_diffs_to_cache c
      ({ w with view_cache := setCache w.view_cache m c' }, c'.entities)
  | none =>
    let matched := w.entities.filter fun e =>
      decide (m ⊆ w.entity_masks (entity_index e)) && decide (e ≠ NullEntity)
    let lk := matched.foldl (fun s e => insert e s) (∅ : Finset Nat)
    ({ w with view_cache := w.view_cache ++ [(m, ⟨matched, [], lk⟩)] }, matched)

/-- World::view with the requested component list. -/
def World.view (w : World) (ts : List Nat) (include_inactive : Bool) :
    World × List Nat :=
  w.view_mask (view_mask_of ts include_inactive)

/-- World::make_inactive_entity. With no recycled id available the new id
is the running count (converted to uint32); the very first allocation
first pushes NullEntity and skips index 0. Otherwise the id on top of the
recycle stack (back/pop_back) is reused with its version incremented. -/
def World.make_inactive_entity (w : World) : World × Nat :=
  match w.unused_entities.getLast? with
  | none =>
    let e := w.alive_count % 4294967296
    if e = NullEntity then
      ({ w with entities := (w.entities ++ [NullEntity]) ++ [1],
                alive_count := w.alive_count + 2 }, 1)
    else
      ({ w with entities := w.entities ++ [e], alive_count := w.alive_count + 1 }, e)
  | some u =>
    let e := entity_id (entity_index u) (entity_version u + 1)
    ({ w with unused_entities := w.unused_entities.dropLast,
              entities := w.entities ++ [e] }, e)

/-- World::make_entity: make_inactive_entity then pack an Active component
(an empty struct, its value is irrelevant). -/
def World.make_entity (w : World) : World × Nat :=
  let p := w.make_inactive_entity
  (p.1.pack p.2 activeComponent 0, p.2)

/-- World::copy_entity: for every registered type present on the source
mask, copy the component and set the destination bit; then enqueue Add
diffs exactly as pack does. Registered types are modelled as the indices
below componentMax; the source iterates registered types and tests the
source mask, and unregistered indices never occur in a mask, so iterating
all indices with the same test is the same loop. -/
def World.copy_entity (w : World) (dst src : Nat) : World :=
  let src_mask := w.entity_masks (entity_index src)
  let w1 :=
    (List.range componentMax).foldl
      (fun acc t =>
        if t ∈ src_mask then
          { acc with
            components := fun t2 =>
              if t2 = t then (acc.components t).copy dst src else acc.components t2,
            entity_masks := fun i =>
              if i = entity_index dst then insert t (acc.entity_masks (entity_index dst))
              else acc.entity_masks i }
        else acc)
      w
  let dst_mask := w1.entity_masks (entity_index dst)
  { w1 with
    view_cache := w1.view_cache.map fun p =>
      if p.1 ⊆ dst_mask ∧ dst ∉ p.2.lookup then (p.1, invalidate_cache p.2 ⟨dst, DiffOp.add⟩)
      else p }

/-- World::destroy_entity: remove the entity from every store, zero its
mask, append a Remove diff (directly, without the invalidate_cache
de-duplication) to every cache whose membership set holds it, record those
caches with the destroyed id, and swap-remove the id from the live list. -/
def World.destroy_entity (w : World) (e : Nat) : World :=
  let idx := entity_index e
  let touched := (w.view_cache.filter fun p => e ∈ p.2.lookup).map fun p => p.1
  { w with
    components := fun t => (w.components t).remove e,
    entity_masks := fun i => if i = idx then ∅ else w.entity_masks i,
    view_cache := w.view_cache.map fun p =>
      if e ∈ p.2.lookup then (p.1, { p.2 with diffs := p.2.diffs ++ [⟨e, DiffOp.remove⟩] })
      else p,
    entities := swapRemove w.entities e,
    destroyed_entities := w.destroyed_entities ++ [⟨e, touched⟩] }

/-- Fold the pending diffs of the cache stored under one key. -/
def applyCacheAt (vc : List (Finset Nat × EntityCache)) (m : Finset Nat) :
    List (Finset Nat × EntityCache) :=
  vc.map fun p => if p.1 = m then (p.1, apply_diffs_to_cache p.2) else p

/-- World::collect_unused_entities: for every entity destroyed this frame,
fold the diffs of every cache that still references it, then release the
id to the recycle pool; finally forget the destroyed records. Folding a
cache touches neither the recycle pool nor the destroyed list, so the
interleaved source loop equals these two independent passes. -/
def World.collect_unused_entities (w : World) : World :=
  match w.destroyed_entities with
  | [] => w
  | _ :: _ =>
    { w with
      view_cache :=
        w.destroyed_entities.foldl (fun vc d => d.caches.foldl applyCacheAt vc) w.view_cache,
      unused_entities := w.unused_entities ++ w.destroyed_entities.map (fun d => d.entity),
      destroyed_entities := [] }

/-- The brute force structural scan the spec compares view against: all
live entities whose mask contains the requested mask, excluding the null
entity. -/
def bruteScan (w : World) (m : Finset Nat) : List Nat :=
  w.entities.filter fun e =>
    decide (m ⊆ w.entity_masks (entity_index e)) && decide (e ≠ NullEntity)

/-! An operation language over the World, used to quantify over call
sequences. Calls whose defensive assertion would fail are skipped (a fatal
precondition violation in the source). -/

inductive Op where
  | mkEntity
  | mkInactive
  | pack (e t v : Nat)
  | remove (e t : Nat)
  | copy (dst src : Nat)
  | destroy (e : Nat)
  | view (ts : List Nat) (include_inactive : Bool)
  | collect
deriving DecidableEq

def Op.isDestroy : Op → Bool
  | Op.destroy _ => true
  | _ => false

def applyOp (w : World) : Op → World
  | Op.mkEntity =>
    if w.unused_entities = [] ∧ entityMax ≤ w.alive_count then w else (w.make_entity).1
  | Op.mkInactive =>
    if w.unused_entities = [] ∧ entityMax ≤ w.alive_count then w else (w.make_inactive_entity).1
  | Op.pack e t v =>
    if e = NullEntity ∨ componentMax ≤ t then w else w.pack e t v
  | Op.remove e t =>
    if componentMax ≤ t then w else w.remove e t
  | Op.copy dst src =>
    if dst = NullEntity then w else w.copy_entity dst src
  | Op.destroy e =>
    if e = NullEntity ∨ e ∉ w.entities then w else w.destroy_entity e
  | Op.view ts ii =>
    if ts.all (fun t => t < componentMax) then (w.view ts ii).1 else w
  | Op.collect => w.collect_unused_entities

/-- Run a call sequence from a fresh World. -/
def run (ops : List Op) : World :=
  ops.foldl applyOp World.init

/-- One store operation: ComponentArray::write or ComponentArray::remove. -/
inductive StoreOp (T : Type) where
  | write (e : Nat) (v : T)
  | remove (e : Nat)

/-- Apply one store operation. -/
def storeStep {T : Type} (a : ComponentArray T) : StoreOp T → ComponentArray T
  | StoreOp.write e v => a.write e v
  | StoreOp.remove e => a.remove e

/-- Apply a sequence of write/remove operations to a fresh store. -/
def runStore {T : Type} (ops : List (StoreOp T)) : ComponentArray T :=
  ops.foldl storeStep ComponentArray.empty

/-- The gap-free packing invariant of a ComponentArray: slots below the
count are backed by the vector, the two maps are mutually inverse between
entities and the slots [0, count), and every such slot is occupied. -/
def ComponentArray.WF {T : Type} (a : ComponentArray T) : Prop :=
  a.packed_count ≤ a.packed_array.length ∧
  (∀ e s, a.entity_to_packed e = some s →
    s < a.packed_count ∧ a.packed_to_entity s = some e) ∧
  (∀ s e, a.packed_to_entity s = some e →
    s < a.packed_count ∧ a.entity_to_packed e = some s) ∧
  (∀ s, s < a.packed_count → (a.packed_to_entity s).isSome)

theorem wf_empty {T : Type} : (ComponentArray.empty : ComponentArray T).WF := by
  refine ⟨Nat.le_refl _, ?_, ?_, ?_⟩ <;> simp [ComponentArray.empty]

theorem wf_write {T : Type} {a : ComponentArray T} (h : a.WF) (e : Nat) (v : T) :
    (a.write e v).WF := by
  obtain ⟨hlen, he2p, hp2e, hsurj⟩ := h
  cases hcase : a.entity_to_packed e with
  | some pos =>
    refine ⟨?_, ?_, ?_, ?_⟩ <;>
      simp only [ComponentArray.write, hcase, List.length_set]
    · exact hlen
    · exact he2p
    · exact hp2e
    · exact hsurj
  | none =>
    refine ⟨?_, ?_, ?_, ?_⟩ <;> simp only [ComponentArray.write, hcase]
    · split
      · rw [List.length_set]; omega
      · rw [List.length_append, List.length_singleton]; omega
    · intro x s hx
      by_cases hxe : x = e
      · subst hxe
        rw [if_pos rfl] at hx
        obtain rfl : a.packed_count = s := by simpa using hx
        simp
      · rw [if_neg hxe] at hx
        obtain ⟨hs, hback⟩ := he2p x s hx
        have hsne : s ≠ a.packed_count := Nat.ne_of_lt hs
        rw [if_neg hsne]
        exact ⟨Nat.lt_succ_of_lt hs, hback⟩
    · intro s y hy
      by_cases hsp : s = a.packed_count
      · subst hsp
        rw [if_pos rfl] at hy
        obtain rfl : e = y := by simpa using hy
        simp
      · rw [if_neg hsp] at hy
        obtain ⟨hs, hback⟩ := hp2e s y hy
        have hyne : y ≠ e := by
          intro hcontra; rw [hcontra] at hback
          rw [hback] at hcase; cases hcase
        rw [if_neg hyne]
        exact ⟨Nat.lt_succ_of_lt hs, hback⟩
    · intro s hs
      by_cases hsp : s = a.packed_count
      · subst hsp; simp
      · rw [if_neg hsp]
        exact hsurj s (by omega)

theorem wf_remove {T : Type} {a : ComponentArray T} (h : a.WF) (e : Nat) :
    (a.remove e).WF := by
  obtain ⟨hlen, he2p, hp2e, hsurj⟩ := h
  cases hcase : a.entity_to_packed e with
  | none =>
    simpa only [ComponentArray.remove, hcase] using ⟨hlen, he2p, hp2e, hsurj⟩
  | some removed =>
    obtain ⟨hremlt, hremback⟩ := he2p e removed hcase
    have hcpos : 1 ≤ a.packed_count := Nat.one_le_iff_ne_zero.mpr (by omega)
    have hlastlt : a.packed_count - 1 < a.packed_count := by omega
    obtain ⟨m, hm⟩ : ∃ m, a.packed_to_entity (a.packed_count - 1) = some m := by
      cases hq : a.packed_to_entity (a.packed_count - 1) with
      | none => exact absurd (hsurj _ hlastlt) (by rw [hq]; simp)
      | some y => exact ⟨y, rfl⟩
    obtain ⟨_, hminv⟩ := hp2e _ m hm
    obtain ⟨lv, hget⟩ : ∃ lv, a.packed_array.get? (a.packed_count - 1) = some lv := by
      cases hq : a.packed_array.get? (a.packed_count - 1) with
      | none =>
        rw [List.get?_eq_none] at hq
        omega
      | some y => exact ⟨y, rfl⟩
    refine ⟨?_, ?_, ?_, ?_⟩ <;>
      simp only [ComponentArray.remove, hcase, hget, hm, Option.getD_some]
    · rw [List.length_set]; omega
    · intro x s hx
      by_cases hxe : x = e
      · rw [if_pos hxe] at hx; cases hx
      · rw [if_neg hxe] at hx
        by_cases hxm : x = m
        · rw [if_pos hxm] at hx
          obtain rfl : removed = s := by simpa using hx
          have hmne : m ≠ e := by rw [← hxm]; exact hxe
          have hrl : removed ≠ a.packed_count - 1 := by
            intro hcontra
            rw [hcontra] at hremback
            rw [hremback] at hm
            exact hmne (by simpa using hm.symm)
          refine ⟨by omega, ?_⟩
          rw [if_neg hrl, if_pos rfl, hxm]
        · rw [if_neg hxm] at hx
          obtain ⟨hs, hback⟩ := he2p x s hx
          have hsl : s ≠ a.packed_count - 1 := by
            intro hcontra
            rw [hcontra] at hback
            rw [hback] at hm
            exact hxm (by simpa using hm)
          have hsr : s ≠ removed := by
            intro hcontra
            rw [hcontra] at hback
            rw [hback] at hremback
            exact hxe (by simpa using hremback)
          refine ⟨by omega, ?_⟩
          rw [if_neg hsl, if_neg hsr]
          exact hback
    · intro s y hy
      by_cases hsl : s = a.packed_count - 1
      · rw [if_pos hsl] at hy; cases hy
      · rw [if_neg hsl] at hy
        by_cases hsr : s = removed
        · rw [if_pos hsr] at hy
          obtain rfl : m = y := by simpa using hy
          have hmne : m ≠ e := by
            intro hcontra
            rw [hcontra] at hminv
            rw [hminv] at hcase
            have hflip : a.packed_count - 1 = removed := by simpa using hcase
            exact hsl (hsr.trans hflip.symm)
          refine ⟨by omega, ?_⟩
          rw [if_neg hmne, if_pos rfl, hsr]
        · rw [if_neg hsr] at hy
          obtain ⟨hs, hback⟩ := hp2e s y hy
          have hyne : y ≠ e := by
            intro hcontra
            rw [hcontra] at hback
            rw [hback] at hcase
            exact hsr (by simpa using hcase)
          have hym : y ≠ m := by
            intro hcontra
            rw [hcontra] at hback
            rw [hback] at hminv
            exact hsl (by simpa using hminv)
          have hslt : s < a.packed_count - 1 := by
            rcases Nat.lt_or_ge s (a.packed_count - 1) with hlt | hge
            · exact hlt
            · exact absurd (Nat.le_antisymm (by omega) hge) hsl
          refine ⟨hslt, ?_⟩
          rw [if_neg hyne, if_neg hym]
          exact hback
    · intro s hs
      have hsl : s ≠ a.packed_count - 1 := by omega
      rw [if_neg hsl]
      by_cases hsr : s = removed
      · rw [if_pos hsr]; simp
      · rw [if_neg hsr]
        exact hsurj s (by omega)

/-- Helper for C7: ComponentArray::remove on an absent entity is the
identity on the store. -/
theorem remove_noop_of_absent {T : Type} (a : ComponentArray T) (e : Nat)
    (h : a.containsEnt e = false) : a.remove e = a := by
  have hnone : a.entity_to_packed e = none := by
    cases hq : a.entity_to_packed e with
    | none => rfl
    | some y =>
      exfalso
      rw [ComponentArray.containsEnt, hq] at h
      cases h
  simp only [ComponentArray.remove, hnone]

/-- Helper for C7: after write then remove of the same entity, the entity
has no slot. -/
theorem contains_write_remove_false {T : Type} (a : ComponentArray T) (e : Nat) (v : T) :
    ((a.write e v).remove e).containsEnt e = false := by
  obtain ⟨pos, hpos⟩ : ∃ pos, (a.write e v).entity_to_packed e = some pos := by
    cases hq : a.entity_to_packed e with
    | some p => exact ⟨p, by simp only [ComponentArray.write, hq]⟩
    | none => exact ⟨a.packed_count, by simp [ComponentArray.write, hq]⟩
  simp only [ComponentArray.remove, hpos, ComponentArray.containsEnt, if_pos rfl]
  rfl

/-! EventChannel and the World event routing. Channels are stored per
event type; we model the slice of the channel table at one event payload
type E, keyed by the type token (a Nat standing for type_id). -/

structure EventWorld (E : Type) where
  channels : List (Nat × List (E → Bool))

/-- Lookup of the channel bound to a type token (channels.find(type)). -/
def findChannel {E : Type} (cs : List (Nat × List (E → Bool))) (tok : Nat) :
    Option (List (E → Bool)) :=
  match cs with
  | [] => none
  | p :: rest => if p.1 = tok then some p.2 else findChannel rest tok

/-- World::bind: lazily create the channel on first bind, then append the
handler to the channel chain (EventChannel::bind is a push_back). -/
def EventWorld.bindHandler {E : Type} (w : EventWorld E) (tok : Nat) (fn : E → Bool) :
    EventWorld E :=
  match findChannel w.channels tok with
  | some _ =>
    ⟨w.channels.map fun p => if p.1 = tok then (p.1, p.2 ++ [fn]) else p⟩
  | none => ⟨w.channels ++ [(tok, [fn])]⟩

/-- EventChannel::emit: invoke the handlers in order, stopping right after
the first one that returns true; the result records the value returned by
each handler that was invoked. -/
def emitHandlers {E : Type} : List (E → Bool) → E → List Bool
  | [], _ => []
  | f :: fs, ev => if f ev then [true] else false :: emitHandlers fs ev

/-- World::emit: a silent no-op when the type has no channel; otherwise
the channel emits. The member is const: the world is returned unchanged,
paired with the invocation record. -/
def EventWorld.emit {E : Type} (w : EventWorld E) (tok : Nat) (ev : E) :
    EventWorld E × List Bool :=
  match findChannel w.channels tok with
  | none => (w, [])
  | some hs => (w, emitHandlers hs ev)

/-! The system list. System instances and their types are opaque to the
list logic, so both are modelled as tokens; loaded records every
System::load callback in call order. -/

structure SystemWorld where
  active_systems : List Nat
  active_system_types : List Nat
  loaded : List Nat

def SystemWorld.empty : SystemWorld := ⟨[], [], []⟩

/-- vector::insert(begin() + n, x). -/
def insertAt (l : List Nat) (n : Nat) (x : Nat) : List Nat :=
  l.take n ++ x :: l.drop n

/-- std::find position of the first occurrence, as an index. -/
def firstIdxOf (l : List Nat) (x : Nat) : Option Nat :=
  match l with
  | [] => none
  | y :: rest => if y = x then some 0 else (firstIdxOf rest x).map (· + 1)

/-- World::make_system: push the system and its type, then call load. -/
def SystemWorld.make_system (w : SystemWorld) (sys ty : Nat) : SystemWorld :=
  { active_systems := w.active_systems ++ [sys],
    active_system_types := w.active_system_types ++ [ty],
    loaded := w.loaded ++ [sys] }

/-- World::make_system_before: when a system of type beforeTy exists at
position i of the type list, the source computes
std::distance(pos, end) - 1, which is length - i - 1, inserts the new
system there in the instance list, and inserts the new type at i in the
type list; load is never invoked. When beforeTy is absent the system is
returned without being added. -/
def SystemWorld.make_system_before (w : SystemWorld) (beforeTy sys ty : Nat) :
    SystemWorld :=
  match firstIdxOf w.active_system_types beforeTy with
  | none => w
  | some i =>
    let index := (w.active_system_types.length - i) - 1
    { w with
      active_systems := insertAt w.active_systems index sys,
      active_system_types := insertAt w.active_system_types i ty }

/-! Claim theorems. -/

theorem foldl_storeStep_wf {T : Type} (ops : List (StoreOp T)) (a : ComponentArray T)
    (h : a.WF) : (ops.foldl storeStep a).WF := by
  induction ops generalizing a with
  | nil => exact h
  | cons o rest ih =>
    cases o with
    | write e v => exact ih _ (wf_write h e v)
    | remove e => exact ih _ (wf_remove h e)

/-- C6: after every sequence of write and remove operations the component
store stays gap-free: the count is backed by the dense vector, the
entity-to-slot and slot-to-entity maps are mutually inverse bijections
between the stored entities and exactly the slots [0, count), and every
slot below the count is occupied. The swap-with-last mechanism is the
remove branch of the embedded ComponentArray.remove. -/
theorem component_store_stays_packed {T : Type} (ops : List (StoreOp T)) :
    (runStore ops).packed_count ≤ (runStore ops).packed_array.length ∧
    (∀ e s, (runStore ops).entity_to_packed e = some s →
      s < (runStore ops).packed_count ∧ (runStore ops).packed_to_entity s = some e) ∧
    (∀ s e, (runStore ops).packed_to_entity s = some e →
      s < (runStore ops).packed_count ∧ (runStore ops).entity_to_packed e = some s) ∧
    (∀ s, s < (runStore ops).packed_count → ((runStore ops).packed_to_entity s).isSome) :=
  foldl_storeStep_wf ops ComponentArray.empty wf_empty

theorem component_store_stays_packed_witness :
    (runStore [StoreOp.write 5 (7 : Nat), StoreOp.write 6 8,
      StoreOp.remove 5]).entity_to_packed 6 = some 0 ∧
    (0 < (runStore [StoreOp.write 5 (7 : Nat), StoreOp.write 6 8,
        StoreOp.remove 5]).packed_count ∧
      (runStore [StoreOp.write 5 (7 : Nat), StoreOp.write 6 8,
        StoreOp.remove 5]).packed_to_entity 0 = some 6) :=
  ⟨by decide,
    (component_store_stays_packed [StoreOp.write 5 (7 : Nat), StoreOp.write 6 8,
      StoreOp.remove 5]).2.1 6 0 (by decide)⟩

/-- C7: removing a component from an entity that does not hold it leaves
the store unchanged; after write then remove the entity no longer holds
the component, and a second remove is the identity (remove is
idempotent). -/
theorem remove_absent_noop_idempotent {T : Type} (a : ComponentArray T) (e : Nat) (v : T) :
    (a.containsEnt e = false → a.remove e = a) ∧
    ((a.write e v).remove e).containsEnt e = false ∧
    ((a.write e v).remove e).remove e = (a.write e v).remove e :=
  ⟨remove_noop_of_absent a e,
    contains_write_remove_false a e v,
    remove_noop_of_absent _ e (contains_write_remove_false a e v)⟩

theorem remove_absent_noop_idempotent_witness :
    ((ComponentArray.empty : ComponentArray Nat).containsEnt 5 = false ∧
      (ComponentArray.empty : ComponentArray Nat).remove 5 = ComponentArray.empty) ∧
    (((ComponentArray.empty : ComponentArray Nat).write 5 7).remove 5).containsEnt 5 = false ∧
    (((ComponentArray.empty : ComponentArray Nat).write 5 7).remove 5).remove 5 =
      ((ComponentArray.empty : ComponentArray Nat).write 5 7).remove 5 :=
  ⟨⟨rfl, (remove_absent_noop_idempotent (ComponentArray.empty : ComponentArray Nat) 5 7).1 rfl⟩,
    (remove_absent_noop_idempotent (ComponentArray.empty : ComponentArray Nat) 5 7).2.1,
    (remove_absent_noop_idempotent (ComponentArray.empty : ComponentArray Nat) 5 7).2.2⟩

/-- C8: emit invokes the bound handlers in bind order and stops the chain
right after a handler returns true: with three handlers bound in order
where the second handles the event, exactly the first two are invoked
(the invocation record is [false, true]); emitting on a type with no
channel is a silent no-op, and emit leaves the world unchanged. -/
theorem emit_short_circuit {E : Type} (w : EventWorld E) (tok : Nat) (ev : E)
    (f1 f2 f3 : E → Bool) (h1 : f1 ev = false) (h2 : f2 ev = true) :
    (findChannel w.channels tok = some [f1, f2, f3] →
      (w.emit tok ev).2 = [false, true]) ∧
    (findChannel w.channels tok = none → (w.emit tok ev).2 = []) ∧
    (w.emit tok ev).1 = w ∧
    (((((EventWorld.mk ([] : List (Nat × List (E → Bool)))).bindHandler tok
        f1).bindHandler tok f2).bindHandler tok f3).emit tok ev).2 = [false, true] := by
  refine ⟨?_, ?_, ?_, ?_⟩
  · intro h
    simp [EventWorld.emit, h, emitHandlers, h1, h2]
  · intro h
    simp [EventWorld.emit, h]
  · cases hq : findChannel w.channels tok <;> simp [EventWorld.emit, hq]
  · simp [EventWorld.bindHandler, findChannel, EventWorld.emit, emitHandlers, h1, h2]

theorem emit_short_circuit_witness :
    ((fun _ => false : Nat → Bool) 5 = false ∧ (fun _ => true : Nat → Bool) 5 = true) ∧
    ((EventWorld.mk [(0, [(fun _ => false : Nat → Bool), (fun _ => true), (fun _ => false)])]).emit
      0 5).2 = [false, true] :=
  ⟨⟨rfl, rfl⟩,
    (emit_short_circuit (EventWorld.mk [(0, [(fun _ => false : Nat → Bool), (fun _ => true),
      (fun _ => false)])]) 0 5 _ _ _ rfl rfl).1 rfl⟩

/-- C9 fails on the code: starting from systems [10 (type 0), 11 (type 1)]
and inserting system 12 (type 2) before type 0, the source inserts the new
system at position length - i - 1 = 1 of the instance list but at position
i = 0 of the type list: the instance list becomes [10, 12, 11] instead of
the claimed [12, 10, 11], the two parallel lists disagree, and the load
callback is never invoked (loaded stays [10, 11]). -/
theorem make_system_before_misplaces :
    ((((SystemWorld.empty.make_system 10 0).make_system 11 1).make_system_before 0 12
        2).active_systems = [10, 12, 11]) ∧
    ((((SystemWorld.empty.make_system 10 0).make_system 11 1).make_system_before 0 12
        2).active_system_types = [2, 0, 1]) ∧
    ((((SystemWorld.empty.make_system 10 0).make_system 11 1).make_system_before 0 12
        2).loaded = [10, 11]) ∧
    ((((SystemWorld.empty.make_system 10 0).make_system 11 1).make_system_before 0 12
        2).active_systems ≠ [12, 10, 11]) ∧
    12 ∉ (((SystemWorld.empty.make_system 10 0).make_system 11 1).make_system_before 0 12
        2).loaded := by
  decide

/-- The World reached by: view the mask for component 1; create an entity;
pack component 1 on it; destroy it; reconcile. -/
def c1world : World :=
  run [Op.view [1] false, Op.mkEntity, Op.pack 1 1 7, Op.destroy 1, Op.collect]

/-- C1 fails on the code: after the reconciled sequence of c1world, the
view of mask {Active, 1} still returns [1] out of a stale pending Add
diff, while the brute force scan over live entities returns [], and the
destroyed id 1 has already been released for reuse. The pack enqueued an
Add diff, destroy_entity saw the entity absent from the membership set and
neither enqueued a Remove nor recorded the cache, so reconciliation
recycled the id while the cache still referenced it. -/
theorem view_returns_destroyed_after_reconcile :
    (c1world.view [1] false).2 = [1] ∧
    bruteScan c1world (view_mask_of [1] false) = [] ∧
    c1world.unused_entities = [1] := by
  decide

/-- The World reached by: view the mask for component 1; create an entity;
pack component 1 on it; remove component 1 from it. -/
def c2world : World :=
  run [Op.view [1] false, Op.mkEntity, Op.pack 1 1 7, Op.remove 1 1]

/-- C2 fails on the code: in c2world the cache entry for mask {Active, 1}
has pending diffs whose fold yields the list [1], while the true result
set of that mask is empty: remove skipped the Remove diff because the
entity was not in the stale membership set, leaving the earlier Add diff
pending. The invariant is not preserved by World::remove. -/
theorem cache_fold_misses_true_set :
    ((findCache c2world.view_cache (view_mask_of [1] false)).map
      fun c => (apply_diffs_to_cache c).entities) = some [1] ∧
    bruteScan c2world (view_mask_of [1] false) = [] := by
  decide

/-- The World reached by: create an entity; pack component 1; view the
mask for component 1 (folding the cache); remove component 1; destroy the
entity. -/
def c4world : World :=
  run [Op.mkEntity, Op.pack 1 1 7, Op.view [1] false, Op.remove 1 1, Op.destroy 1]

/-- C4 fails on the code as stated: in c4world the cache entry for mask
{Active, 1} holds two identical pending diffs (entity 1, Remove), because
destroy_entity appends its Remove diff directly instead of going through
the invalidate_cache de-duplication. -/
theorem destroy_enqueues_duplicate_diff :
    ((findCache c4world.view_cache (view_mask_of [1] false)).map fun c => c.diffs) =
      some [⟨1, DiffOp.remove⟩, ⟨1, DiffOp.remove⟩] ∧
    ¬ ∀ p ∈ c4world.view_cache, p.2.diffs.Nodup := by
  decide

/-- The World reached by: create two entities; destroy both (the first
created first); reconcile. Its recycle pool is [1, 2] in release order. -/
def c3world : World :=
  run [Op.mkEntity, Op.mkEntity, Op.destroy 1, Op.destroy 2, Op.collect]

/-- C3 fails on the code as stated: with recycle pool [1, 2] (1 released
first, hence oldest available), the next created entity takes index 2 with
version 1 - the pool is a LIFO stack (back/pop_back), not oldest first. -/
theorem recycle_pool_is_lifo :
    c3world.unused_entities = [1, 2] ∧
    (c3world.make_inactive_entity).2 = entity_id 2 1 ∧
    entity_index (c3world.make_inactive_entity).2 ≠ entity_index 1 := by
  decide

theorem make_inactive_recycled (w : World) (u : Nat)
    (hu : w.unused_entities.getLast? = some u) :
    (w.make_inactive_entity).2 = entity_id (entity_index u) (entity_version u + 1) ∧
    (w.make_inactive_entity).1.unused_entities = w.unused_entities.dropLast := by
  unfold World.make_inactive_entity
  rw [hu]
  exact ⟨rfl, rfl⟩

theorem make_inactive_fresh_version (w : World) (hempty : w.unused_entities = [])
    (hlt : w.alive_count < 65536) : entity_version (w.make_inactive_entity).2 = 0 := by
  have hnone : w.unused_entities.getLast? = none := by rw [hempty]; rfl
  have hmod : w.alive_count % 4294967296 = w.alive_count := Nat.mod_eq_of_lt (by omega)
  simp only [World.make_inactive_entity, hnone, hmod]
  split
  · show entity_version 1 = 0
    decide
  · exact Nat.div_eq_of_lt hlt

/-- C3 amended: creation with an empty recycle pool returns a handle with
version 0; otherwise the most recently released id (the back of the
recycle stack) is reused with its version incremented by one; and after
destroying a single entity and reconciling, the next created entity takes
that entity's index with version + 1. -/
theorem make_inactive_entity_recycling (w : World) :
    (w.unused_entities = [] → w.alive_count < 65536 →
      entity_version (w.make_inactive_entity).2 = 0) ∧
    (∀ u, w.unused_entities.getLast? = some u →
      (w.make_inactive_entity).2 = entity_id (entity_index u) (entity_version u + 1) ∧
      (w.make_inactive_entity).1.unused_entities = w.unused_entities.dropLast) ∧
    (∀ d, w.destroyed_entities = [d] → w.unused_entities = [] →
      ((w.collect_unused_entities).make_inactive_entity).2 =
        entity_id (entity_index d.entity) (entity_version d.entity + 1)) := by
  refine ⟨make_inactive_fresh_version w, fun u hu => make_inactive_recycled w u hu, ?_⟩
  intro d hd hempty
  have hcollect : (w.collect_unused_entities).unused_entities = [d.entity] := by
    simp [World.collect_unused_entities, hd, hempty]
  have hlast : (w.collect_unused_entities).unused_entities.getLast? = some d.entity := by
    rw [hcollect]; rfl
  exact (make_inactive_recycled _ d.entity hlast).1

/-- The World reached by: create an entity; destroy it. One destroyed
record is pending and the recycle pool is empty. -/
def c3witworld : World := run [Op.mkEntity, Op.destroy 1]

theorem make_inactive_entity_recycling_witness :
    c3witworld.destroyed_entities = [⟨1, []⟩] ∧
    c3witworld.unused_entities = [] ∧
    ((c3witworld.collect_unused_entities).make_inactive_entity).2 = entity_id 1 1 :=
  ⟨by decide, by decide,
    (make_inactive_entity_recycling c3witworld).2.2 ⟨1, []⟩ (by decide) (by decide)⟩

/-- C5: packing a component type the entity already carries (its mask bit
is set and the store maps it to slot s) is a pure overwrite: the query
cache is untouched in every part (so no entity list, membership set or
pending diff queue changes, and no cache membership changes for any
query), the live lists, masks and all other stores are unchanged, and in
the store of that type only the value at the slot of the entity changes. -/
theorem pack_overwrite_pure (w : World) (e t v s : Nat)
    (hmask : t ∈ w.entity_masks (entity_index e))
    (hslot : (w.components t).entity_to_packed e = some s) :
    (w.pack e t v).view_cache = w.view_cache ∧
    (w.pack e t v).entities = w.entities ∧
    (w.pack e t v).unused_entities = w.unused_entities ∧
    (w.pack e t v).destroyed_entities = w.destroyed_entities ∧
    (w.pack e t v).alive_count = w.alive_count ∧
    (∀ i, (w.pack e t v).entity_masks i = w.entity_masks i) ∧
    (∀ t2, t2 ≠ t → (w.pack e t v).components t2 = w.components t2) ∧
    ((w.pack e t v).components t).entity_to_packed = (w.components t).entity_to_packed ∧
    ((w.pack e t v).components t).packed_to_entity = (w.components t).packed_to_entity ∧
    ((w.pack e t v).components t).packed_count = (w.components t).packed_count ∧
    ((w.pack e t v).components t).packed_array = (w.components t).packed_array.set s v := by
  have hpack : w.pack e t v =
      { w with
        entity_masks := fun i =>
          if i = entity_index e then insert t (w.entity_masks (entity_index e))
          else w.entity_masks i,
        components := fun t2 =>
          if t2 = t then (w.components t).write e v else w.components t2 } := by
    simp only [World.pack, if_pos hmask]
  have hwrite : (w.components t).write e v =
      { w.components t with packed_array := (w.components t).packed_array.set s v } := by
    simp only [ComponentArray.write, hslot]
  rw [hpack]
  refine ⟨rfl, rfl, rfl, rfl, rfl, ?_, ?_, ?_, ?_, ?_, ?_⟩
  · intro i
    dsimp only
    by_cases hi : i = entity_index e
    · rw [if_pos hi, hi, Finset.insert_eq_self.mpr hmask]
    · rw [if_neg hi]
  · intro t2 ht2
    dsimp only
    rw [if_neg ht2]
  · dsimp only
    rw [if_pos rfl, hwrite]
  · dsimp only
    rw [if_pos rfl, hwrite]
  · dsimp only
    rw [if_pos rfl, hwrite]
  · dsimp only
    rw [if_pos rfl, hwrite]

/-- The World reached by: create an entity; pack component 1 with value 7.
Entity 1 carries component 1 at slot 0. -/
def c5world : World := run [Op.mkEntity, Op.pack 1 1 7]

theorem pack_overwrite_pure_witness :
    (1 ∈ c5world.entity_masks (entity_index 1) ∧
      (c5world.components 1).entity_to_packed 1 = some 0) ∧
    (c5world.pack 1 1 99).view_cache = c5world.view_cache ∧
    ((c5world.pack 1 1 99).components 1).packed_array =
      (c5world.components 1).packed_array.set 0 99 :=
  ⟨⟨by decide, by decide⟩,
    (pack_overwrite_pure c5world 1 1 99 0 (by decide) (by decide)).1,
    (pack_overwrite_pure c5world 1 1 99 0 (by decide) (by decide)).2.2.2.2.2.2.2.2.2.2⟩

/-! The de-duplication invariant on pending diff queues. A Diff consists
of exactly the entity and the operation, so a queue with no duplicate
(entity, op) pair is a Nodup list. -/

def CacheDiffsNodup (w : World) : Prop :=
  ∀ p ∈ w.view_cache, p.2.diffs.Nodup

theorem invalidate_cache_nodup (c : EntityCache) (d : Diff) (h : c.diffs.Nodup) :
    (invalidate_cache c d).diffs.Nodup := by
  unfold invalidate_cache
  split
  · exact h
  · rename_i hany
    have hnotmem : d ∉ c.diffs := by
      intro hd
      exact hany (List.any_eq_true.mpr ⟨d, hd, by simp⟩)
    exact List.Nodup.append h (List.nodup_singleton d) (by simpa using hnotmem)

theorem cache_map_nodup (vc : List (Finset Nat × EntityCache))
    (g : Finset Nat × EntityCache → Finset Nat × EntityCache)
    (hg : ∀ p, p.2.diffs.Nodup → (g p).2.diffs.Nodup)
    (h : ∀ p ∈ vc, p.2.diffs.Nodup) : ∀ p ∈ vc.map g, p.2.diffs.Nodup := by
  intro p hp
  rw [List.mem_map] at hp
  obtain ⟨q, hq, rfl⟩ := hp
  exact hg q (h q hq)

theorem make_inactive_view_cache (w : World) :
    (w.make_inactive_entity).1.view_cache = w.view_cache := by
  unfold World.make_inactive_entity
  cases hq : w.unused_entities.getLast? with
  | none =>
    simp only
    split <;> rfl
  | some u => rfl

theorem pack_cache_nodup (w : World) (e t v : Nat) (hw : CacheDiffsNodup w) :
    CacheDiffsNodup (w.pack e t v) := by
  unfold CacheDiffsNodup World.pack
  dsimp only
  split
  · exact hw
  · refine cache_map_nodup _ _ ?_ hw
    intro p hp
    split
    · exact invalidate_cache_nodup _ _ hp
    · exact hp

theorem remove_cache_nodup (w : World) (e t : Nat) (hw : CacheDiffsNodup w) :
    CacheDiffsNodup (w.remove e t) := by
  unfold CacheDiffsNodup World.remove
  refine cache_map_nodup _ _ ?_ hw
  intro p hp
  split
  · exact invalidate_cache_nodup _ _ hp
  · exact hp

theorem foldl_view_cache_of (f : World → Nat → World)
    (hf : ∀ w t, (f w t).view_cache = w.view_cache) (l : List Nat) (w : World) :
    (l.foldl f w).view_cache = w.view_cache := by
  induction l generalizing w with
  | nil => rfl
  | cons t rest ih => rw [List.foldl_cons, ih, hf]

theorem copy_cache_nodup (w : World) (dst src : Nat) (hw : CacheDiffsNodup w) :
    CacheDiffsNodup (w.copy_entity dst src) := by
  unfold CacheDiffsNodup World.copy_entity
  have hfold :
      ((List.range componentMax).foldl
        (fun acc t =>
          if t ∈ w.entity_masks (entity_index src) then
            { acc with
              components := fun t2 =>
                if t2 = t then (acc.components t).copy dst src else acc.components t2,
              entity_masks := fun i =>
                if i = entity_index dst then insert t (acc.entity_masks (entity_index dst))
                else acc.entity_masks i }
          else acc)
        w).view_cache = w.view_cache := by
    apply foldl_view_cache_of
    intro w2 t
    split <;> rfl
  dsimp only
  rw [hfold]
  refine cache_map_nodup _ _ ?_ hw
  intro p hp
  split
  · exact invalidate_cache_nodup _ _ hp
  · exact hp

theorem view_cache_nodup (w : World) (ts : List Nat) (ii : Bool)
    (hw : CacheDiffsNodup w) : CacheDiffsNodup ((w.view ts ii).1) := by
  unfold CacheDiffsNodup World.view World.view_mask
  cases hq : findCache w.view_cache (view_mask_of ts ii) with
  | some c =>
    dsimp only
    cases hd : c.diffs with
    | nil => exact hw
    | cons d ds =>
      dsimp only [setCache]
      refine cache_map_nodup _ _ ?_ hw
      intro p hp
      split
      · exact List.nodup_nil
      · exact hp
  | none =>
    dsimp only
    intro p hp
    rw [List.mem_append] at hp
    cases hp with
    | inl hmem => exact hw p hmem
    | inr hmem =>
      rw [List.mem_singleton] at hmem
      subst hmem
      exact List.nodup_nil

theorem applyCacheAt_nodup (vc : List (Finset Nat × EntityCache)) (m : Finset Nat)
    (h : ∀ p ∈ vc, p.2.diffs.Nodup) : ∀ p ∈ applyCacheAt vc m, p.2.diffs.Nodup := by
  refine cache_map_nodup _ _ ?_ h
  intro p hp
  split
  · exact List.nodup_nil
  · exact hp

theorem foldl_applyCacheAt_nodup (keys : List (Finset Nat))
    (vc : List (Finset Nat × EntityCache)) (h : ∀ p ∈ vc, p.2.diffs.Nodup) :
    ∀ p ∈ keys.foldl applyCacheAt vc, p.2.diffs.Nodup := by
  induction keys generalizing vc with
  | nil => exact h
  | cons m rest ih => exact ih _ (applyCacheAt_nodup vc m h)

theorem foldl_destroyed_nodup (ds : List DestroyedEntity)
    (vc : List (Finset Nat × EntityCache)) (h : ∀ p ∈ vc, p.2.diffs.Nodup) :
    ∀ p ∈ ds.foldl (fun vc2 d => d.caches.foldl applyCacheAt vc2) vc, p.2.diffs.Nodup := by
  induction ds generalizing vc with
  | nil => exact h
  | cons d rest ih => exact ih _ (foldl_applyCacheAt_nodup d.caches vc h)

theorem collect_cache_nodup (w : World) (hw : CacheDiffsNodup w) :
    CacheDiffsNodup (w.collect_unused_entities) := by
  unfold CacheDiffsNodup World.collect_unused_entities
  cases hq : w.destroyed_entities with
  | nil => exact hw
  | cons d ds =>
    have := foldl_destroyed_nodup (d :: ds) w.view_cache hw
    simpa using this

theorem applyOp_cache_nodup (w : World) (o : Op) (ho : o.isDestroy = false)
    (hw : CacheDiffsNodup w) : CacheDiffsNodup (applyOp w o) := by
  cases o with
  | mkEntity =>
    simp only [applyOp]
    split
    · exact hw
    · have h1 : CacheDiffsNodup (w.make_inactive_entity).1 := by
        unfold CacheDiffsNodup
        rw [make_inactive_view_cache]
        exact hw
      exact pack_cache_nodup _ _ _ _ h1
  | mkInactive =>
    simp only [applyOp]
    split
    · exact hw
    · unfold CacheDiffsNodup
      rw [make_inactive_view_cache]
      exact hw
  | pack e t v =>
    simp only [applyOp]
    split
    · exact hw
    · exact pack_cache_nodup w e t v hw
  | remove e t =>
    simp only [applyOp]
    split
    · exact hw
    · exact remove_cache_nodup w e t hw
  | copy dst src =>
    simp only [applyOp]
    split
    · exact hw
    · exact copy_cache_nodup w dst src hw
  | destroy e => cases ho
  | view ts ii =>
    simp only [applyOp]
    split
    · exact view_cache_nodup w ts ii hw
    · exact hw
  | collect => exact collect_cache_nodup w hw

theorem foldl_applyOp_nodup (ops : List Op) (w : World) (hw : CacheDiffsNodup w)
    (h : ∀ o ∈ ops, o.isDestroy = false) : CacheDiffsNodup (ops.foldl applyOp w) := by
  induction ops generalizing w with
  | nil => exact hw
  | cons o rest ih =>
    exact ih _ (applyOp_cache_nodup w o (h o (List.mem_cons_self o rest)) hw)
      fun o2 ho2 => h o2 (List.mem_cons_of_mem o ho2)

/-- C4 amended: for every sequence of pack, remove and copy_entity
operations (any World calls except destroy_entity) within one frame, no
pending diff queue in the query cache ever holds two diffs with the same
entity and operation: every enqueue of an already pending diff goes
through invalidate_cache and is dropped. destroy_entity appends its
Remove diffs directly and is excluded. -/
theorem cache_diffs_nodup_without_destroy (ops : List Op)
    (h : ∀ o ∈ ops, o.isDestroy = false) :
    ∀ p ∈ (run ops).view_cache, p.2.diffs.Nodup := by
  have hinit : CacheDiffsNodup World.init := by
    intro p hp
    cases hp
  exact foldl_applyOp_nodup ops World.init hinit h

theorem cache_diffs_nodup_without_destroy_witness :
    (∀ o ∈ [Op.mkEntity, Op.pack 1 1 7, Op.view [1] false, Op.remove 1 1],
      o.isDestroy = false) ∧
    ∀ p ∈ (run [Op.mkEntity, Op.pack 1 1 7, Op.view [1] false,
      Op.remove 1 1]).view_cache, p.2.diffs.Nodup :=
  ⟨by decide, cache_diffs_nodup_without_destroy _ (by decide)⟩

/-! The registry invariant behind C10: index 0 stays reserved. -/

/-- A handle whose index part is at least 1 (so it can never collide with
the null entity). -/
def EntityOk (e : Nat) : Prop := 1 ≤ entity_index e

def WorldInv (w : World) : Prop :=
  w.alive_count ≠ 1 ∧ w.alive_count ≤ entityMax ∧
  (∀ e ∈ w.unused_entities, EntityOk e) ∧
  (∀ d ∈ w.destroyed_entities, EntityOk d.entity) ∧
  (∀ e ∈ w.entities, e = NullEntity ∨ EntityOk e)

theorem entityOk_ne_null {e : Nat} (h : EntityOk e) : e ≠ NullEntity := by
  intro hz
  rw [hz] at h
  unfold EntityOk entity_index NullEntity at h
  omega

theorem entity_index_lt (e : Nat) : entity_index e < 65536 :=
  Nat.mod_lt e (by decide)

theorem entity_id_index (i v : Nat) (hi : i < 65536) :
    entity_index (entity_id i v) = i := by
  unfold entity_id entity_index
  rw [Nat.mod_mod_of_dvd _ (by norm_num), Nat.add_mul_mod_self_right]
  exact Nat.mod_eq_of_lt hi

theorem entityOk_recycled {u : Nat} (hu : EntityOk u) :
    EntityOk (entity_id (entity_index u) (entity_version u + 1)) := by
  unfold EntityOk
  rw [entity_id_index _ _ (entity_index_lt u)]
  exact hu

theorem mem_of_getLast?_eq {l : List Nat} {u : Nat} (h : l.getLast? = some u) :
    u ∈ l := by
  obtain ⟨ys, rfl⟩ := List.getLast?_eq_some_iff.mp h
  exact List.mem_append_right ys (List.mem_singleton.mpr rfl)

theorem worldInv_of_fields {w w' : World} (h1 : w'.alive_count = w.alive_count)
    (h2 : w'.unused_entities = w.unused_entities)
    (h3 : w'.destroyed_entities = w.destroyed_entities)
    (h4 : w'.entities = w.entities) (hw : WorldInv w) : WorldInv w' := by
  unfold WorldInv at *
  rw [h1, h2, h3, h4]
  exact hw

theorem pack_registry_fields (w : World) (e t v : Nat) :
    (w.pack e t v).alive_count = w.alive_count ∧
    (w.pack e t v).unused_entities = w.unused_entities ∧
    (w.pack e t v).destroyed_entities = w.destroyed_entities ∧
    (w.pack e t v).entities = w.entities := by
  unfold World.pack
  dsimp only
  split <;> exact ⟨rfl, rfl, rfl, rfl⟩

theorem foldl_proj_of {α : Type} (proj : World → α) (f : World → Nat → World)
    (hf : ∀ w t, proj (f w t) = proj w) (l : List Nat) (w : World) :
    proj (l.foldl f w) = proj w := by
  induction l generalizing w with
  | nil => rfl
  | cons t rest ih => rw [List.foldl_cons, ih, hf]

theorem copy_registry_fields (w : World) (dst src : Nat) :
    (w.copy_entity dst src).alive_count = w.alive_count ∧
    (w.copy_entity dst src).unused_entities = w.unused_entities ∧
    (w.copy_entity dst src).destroyed_entities = w.destroyed_entities ∧
    (w.copy_entity dst src).entities = w.entities := by
  unfold World.copy_entity
  dsimp only
  refine ⟨?_, ?_, ?_, ?_⟩
  · exact foldl_proj_of World.alive_count _ (fun w2 t => by split <;> rfl) _ w
  · exact foldl_proj_of World.unused_entities _ (fun w2 t => by split <;> rfl) _ w
  · exact foldl_proj_of World.destroyed_entities _ (fun w2 t => by split <;> rfl) _ w
  · exact foldl_proj_of World.entities _ (fun w2 t => by split <;> rfl) _ w

theorem view_registry_fields (w : World) (ts : List Nat) (ii : Bool) :
    (w.view ts ii).1.alive_count = w.alive_count ∧
    (w.view ts ii).1.unused_entities = w.unused_entities ∧
    (w.view ts ii).1.destroyed_entities = w.destroyed_entities ∧
    (w.view ts ii).1.entities = w.entities := by
  unfold World.view World.view_mask
  cases hq : findCache w.view_cache (view_mask_of ts ii) with
  | some c =>
    dsimp only
    cases hd : c.diffs with
    | nil => exact ⟨rfl, rfl, rfl, rfl⟩
    | cons d ds => exact ⟨rfl, rfl, rfl, rfl⟩
  | none =>
    dsimp only
    exact ⟨rfl, rfl, rfl, rfl⟩

theorem swapRemove_subset (l : List Nat) (e : Nat) :
    ∀ x ∈ swapRemove l e, x ∈ (0 : Nat) :: l := by
  intro x hx
  unfold swapRemove at hx
  have hx2 : x ∈ l.set (l.indexOf e) (l.getLastD 0) :=
    (List.dropLast_sublist _).subset hx
  rcases List.mem_or_eq_of_mem_set hx2 with h | h
  · exact List.mem_cons_of_mem _ h
  · rw [h]
    exact List.getLastD_mem_cons l 0

theorem destroy_inv (w : World) (e : Nat) (he : e ≠ NullEntity)
    (hmem : e ∈ w.entities) (hw : WorldInv w) : WorldInv (w.destroy_entity e) := by
  obtain ⟨hne1, hle, hunused, hdest, hent⟩ := hw
  unfold WorldInv World.destroy_entity
  dsimp only
  refine ⟨hne1, hle, hunused, ?_, ?_⟩
  · intro d hd
    rw [List.mem_append] at hd
    rcases hd with hd | hd
    · exact hdest d hd
    · rw [List.mem_singleton] at hd
      subst hd
      rcases hent e hmem with hz | hok
      · exact absurd hz he
      · exact hok
  · intro x hx
    rcases List.mem_cons.mp (swapRemove_subset w.entities e x hx) with hz | hmem2
    · exact Or.inl hz
    · exact hent x hmem2

theorem collect_inv (w : World) (hw : WorldInv w) :
    WorldInv (w.collect_unused_entities) := by
  obtain ⟨hne1, hle, hunused, hdest, hent⟩ := hw
  unfold WorldInv World.collect_unused_entities
  cases hq : w.destroyed_entities with
  | nil =>
    dsimp only
    refine ⟨hne1, hle, hunused, ?_, hent⟩
    rw [hq]
    intro d hd
    cases hd
  | cons d ds =>
    dsimp only
    refine ⟨hne1, hle, ?_, ?_, hent⟩
    · intro x hx
      rw [List.mem_append] at hx
      rcases hx with hx | hx
      · exact hunused x hx
      · rw [List.mem_map] at hx
        obtain ⟨d2, hd2, rfl⟩ := hx
        exact hdest d2 (hq.symm ▸ hd2)
    · intro d2 hd2
      cases hd2

theorem make_inactive_result_ok (w : World) (hw : WorldInv w) :
    EntityOk (w.make_inactive_entity).2 ∧ (w.make_inactive_entity).2 ≠ NullEntity := by
  obtain ⟨hne1, hle, hunused, _, _⟩ := hw
  unfold World.make_inactive_entity
  cases hq : w.unused_entities.getLast? with
  | some u =>
    have hu : EntityOk u := hunused u (mem_of_getLast?_eq hq)
    have hok := entityOk_recycled hu
    exact ⟨hok, entityOk_ne_null hok⟩
  | none =>
    dsimp only
    have hmod : w.alive_count % 4294967296 = w.alive_count :=
      Nat.mod_eq_of_lt (by unfold entityMax at hle; omega)
    split
    · show EntityOk (1 : Nat) ∧ (1 : Nat) ≠ NullEntity
      constructor
      · unfold EntityOk entity_index
        omega
      · unfold NullEntity
        omega
    · rename_i hnz
      show EntityOk (w.alive_count % 4294967296) ∧
        w.alive_count % 4294967296 ≠ NullEntity
      rw [hmod]
      rw [hmod] at hnz
      have h2 : 2 ≤ w.alive_count := by
        rcases Nat.lt_or_ge w.alive_count 2 with hlt | hge
        · interval_cases h : w.alive_count
          · exact absurd rfl hnz
          · exact absurd rfl hne1
        · exact hge
      have hidx : entity_index w.alive_count = w.alive_count :=
        Nat.mod_eq_of_lt (by unfold entityMax at hle; omega)
      constructor
      · unfold EntityOk
        rw [hidx]
        omega
      · unfold NullEntity
        omega

theorem make_inactive_inv (w : World)
    (hguard : ¬(w.unused_entities = [] ∧ entityMax ≤ w.alive_count))
    (hw : WorldInv w) : WorldInv ((w.make_inactive_entity).1) := by
  obtain ⟨hne1, hle, hunused, hdest, hent⟩ := hw
  unfold WorldInv World.make_inactive_entity
  cases hq : w.unused_entities.getLast? with
  | some u =>
    have hu : EntityOk u := hunused u (mem_of_getLast?_eq hq)
    dsimp only
    refine ⟨hne1, hle, ?_, hdest, ?_⟩
    · intro x hx
      exact hunused x ((List.dropLast_sublist _).subset hx)
    · intro x hx
      rw [List.mem_append] at hx
      rcases hx with hx | hx
      · exact hent x hx
      · rw [List.mem_singleton] at hx
        rw [hx]
        exact Or.inr (entityOk_recycled hu)
  | none =>
    have hempty : w.unused_entities = [] := List.getLast?_eq_none_iff.mp hq
    have halt : w.alive_count < entityMax := by
      rcases Nat.lt_or_ge w.alive_count entityMax with hlt | hge
      · exact hlt
      · exact absurd ⟨hempty, hge⟩ hguard
    have hmod : w.alive_count % 4294967296 = w.alive_count :=
      Nat.mod_eq_of_lt (by unfold entityMax at halt; omega)
    dsimp only
    split
    · rename_i hz
      rw [hmod] at hz
      have hzero : w.alive_count = 0 := hz
      dsimp only
      refine ⟨by omega, by unfold entityMax; omega, hunused, hdest, ?_⟩
      intro x hx
      rw [List.mem_append] at hx
      rcases hx with hx | hx
      · rw [List.mem_append] at hx
        rcases hx with hx | hx
        · exact hent x hx
        · rw [List.mem_singleton] at hx
          exact Or.inl hx
      · rw [List.mem_singleton] at hx
        rw [hx]
        refine Or.inr ?_
        unfold EntityOk entity_index
        omega
    · rename_i hnz
      rw [hmod] at hnz
      have h2 : 2 ≤ w.alive_count := by
        rcases Nat.lt_or_ge w.alive_count 2 with hlt | hge
        · interval_cases h : w.alive_count
          · exact absurd rfl hnz
          · exact absurd rfl hne1
        · exact hge
      dsimp only
      refine ⟨by omega, by unfold entityMax at *; omega, hunused, hdest, ?_⟩
      intro x hx
      rw [List.mem_append] at hx
      rcases hx with hx | hx
      · exact hent x hx
      · rw [List.mem_singleton] at hx
        rw [hx, hmod]
        refine Or.inr ?_
        unfold EntityOk entity_index
        unfold entityMax at halt
        omega

theorem applyOp_inv (w : World) (o : Op) (hw : WorldInv w) :
    WorldInv (applyOp w o) := by
  cases o with
  | mkEntity =>
    simp only [applyOp]
    split
    · exact hw
    · rename_i hguard
      have h1 := make_inactive_inv w hguard hw
      obtain ⟨hf1, hf2, hf3, hf4⟩ :=
        pack_registry_fields (w.make_inactive_entity).1 (w.make_inactive_entity).2
          activeComponent 0
      exact worldInv_of_fields hf1 hf2 hf3 hf4 h1
  | mkInactive =>
    simp only [applyOp]
    split
    · exact hw
    · rename_i hguard
      exact make_inactive_inv w hguard hw
  | pack e t v =>
    simp only [applyOp]
    split
    · exact hw
    · obtain ⟨hf1, hf2, hf3, hf4⟩ := pack_registry_fields w e t v
      exact worldInv_of_fields hf1 hf2 hf3 hf4 hw
  | remove e t =>
    simp only [applyOp]
    split
    · exact hw
    · exact worldInv_of_fields rfl rfl rfl rfl hw
  | copy dst src =>
    simp only [applyOp]
    split
    · exact hw
    · obtain ⟨hf1, hf2, hf3, hf4⟩ := copy_registry_fields w dst src
      exact worldInv_of_fields hf1 hf2 hf3 hf4 hw
  | destroy e =>
    simp only [applyOp]
    split
    · exact hw
    · rename_i hcond
      push_neg at hcond
      exact destroy_inv w e hcond.1 hcond.2 hw
  | view ts ii =>
    simp only [applyOp]
    split
    · obtain ⟨hf1, hf2, hf3, hf4⟩ := view_registry_fields w ts ii
      exact worldInv_of_fields hf1 hf2 hf3 hf4 hw
    · exact hw
  | collect => exact collect_inv w hw

theorem foldl_applyOp_inv (ops : List Op) (w : World) (hw : WorldInv w) :
    WorldInv (ops.foldl applyOp w) := by
  induction ops generalizing w with
  | nil => exact hw
  | cons o rest ih => exact ih _ (applyOp_inv w o hw)

theorem run_inv (ops : List Op) : WorldInv (run ops) := by
  have hinit : WorldInv World.init := by
    refine ⟨by decide, by decide, ?_, ?_, ?_⟩ <;> intro x hx <;> cases hx
  exact foldl_applyOp_inv ops World.init hinit

/-- C10: the very first allocation in a fresh World reserves index 0 by
pushing NullEntity into the live list and returning the handle 1; and
after every operation sequence, the handle returned by
make_inactive_entity or make_entity has index at least 1 and is never the
null entity. -/
theorem first_alloc_reserves_null_index (ops : List Op) :
    ((World.init.make_inactive_entity).1.entities = [NullEntity, 1] ∧
      (World.init.make_inactive_entity).2 = 1) ∧
    (1 ≤ entity_index ((run ops).make_inactive_entity).2 ∧
      ((run ops).make_inactive_entity).2 ≠ NullEntity) ∧
    (1 ≤ entity_index ((run ops).make_entity).2 ∧
      ((run ops).make_entity).2 ≠ NullEntity) := by
  refine ⟨by decide, ?_, ?_⟩
  · exact make_inactive_result_ok _ (run_inv ops)
  · exact make_inactive_result_ok _ (run_inv ops)

end TwoEcs
